import Mathlib

/-!
Verification development for the Polk County restaurant inspection scraper
(source file scrape-v17.2-FINAL.mjs).  The browser-driving layer (DOM
queries, clicks, waits) is the external collaborator; everything that the
source computes on extracted data is embedded below as executable Lean
definitions operating on strings, lists and records:

- violation severity classification and point scoring,
- aggregate risk score, risk level and display color,
- facility categorization over the priority-ordered keyword taxonomy,
- the per-row record pipeline of scrapePageResults (routine filter, flags,
  counts, scoring),
- the crawl loop of scrapeCityWithDateRange (duplicate-page loop detection,
  page counter, advance paths, page ceiling), with the environment of one
  run given as a trace of scraped pages and available pagination controls,
- the dedup and merge engine (keepMostRecentInspections,
  mergeWithExistingData).

JavaScript strings are modeled as Lean strings; startsWith and includes are
modeled character-exactly.  Inspection dates are carried as the raw strings
the scraper stores and compared through a model of what new Date gives on
the M/D/YYYY texts the source extracts (an unparseable date compares like
NaN: every strict comparison on it is false).
-/

set_option maxRecDepth 100000

/-- Does the first character list occur as a leading segment of the second
(the character-level content of JS String.prototype.startsWith). -/
def charsPfx : List Char → List Char → Bool
  | [], _ => true
  | _ :: _, [] => false
  | p :: ps, c :: cs => p == c && charsPfx ps cs

/-- Does the first character list occur contiguously anywhere inside the
second (the character-level content of JS String.prototype.includes). -/
def charsInfix (pat : List Char) : List Char → Bool
  | [] => charsPfx pat []
  | c :: cs => charsPfx pat (c :: cs) || charsInfix pat cs

/-- Model of s.startsWith(pat) from JS. -/
def startsWithS (s pat : String) : Bool := charsPfx pat.data s.data

/-- Model of s.includes(pat) from JS. -/
def includesS (s pat : String) : Bool := charsInfix pat.data s.data

/-- Whitespace removal at both ends of a character list. -/
def trimChars (l : List Char) : List Char :=
  ((l.dropWhile Char.isWhitespace).reverse.dropWhile Char.isWhitespace).reverse

/-- Model of s.trim() from JS (the inspection codes are ASCII, so trimming
the ASCII whitespace characters is exact). -/
def trimS (s : String) : String := String.mk (trimChars s.data)

/-- Model of s.toLowerCase() from JS: lowercase character by character. -/
def toLowerS (s : String) : String := String.mk (s.data.map Char.toLower)

/-- VIOLATION_SEVERITY.HIGH_PRIORITY from the source. -/
def HIGH_PRIORITY : List String :=
  ["3-501.16(A)(2)", "3-501.16(A)(1)", "3-401.11", "3-501.14",
   "3-302.11(A)(1)", "3-302.11(A)(2)", "4-601.11(A)", "2-301.14",
   "3-201.11", "3-202.15"]

/-- VIOLATION_SEVERITY.MEDIUM_PRIORITY from the source. -/
def MEDIUM_PRIORITY : List String :=
  ["3-501.17", "2-501.11", "2-401.11", "4-702.11", "4-501.114",
   "3-603.11", "3-305.11"]

/-- VIOLATION_SEVERITY.LOW_PRIORITY from the source. -/
def LOW_PRIORITY : List String :=
  ["2-102.12(A)", "2-103.11(O)", "5-205.11", "5-202.12(A)", "4-501.11",
   "4-903.11"]

/-- VIOLATION_SEVERITY.CORE from the source. -/
def CORE : List String :=
  ["7-102.11", "6-301.14", "6-301.12", "7-204.11", "6-301.11",
   "7-207.11(B)", "7-202.11", "7-201.11"]

/-- One severity table's for-loop from classifyViolation and
getViolationPoints: the trimmed code matches the table when some entry is a
leading segment of it or occurs inside it. -/
def tableMatches (normalized : String) (table : List String) : Bool :=
  table.any (fun c => startsWithS normalized c || includesS normalized c)

/-- Fallback code-prefix list (the local named critical in both classifier
functions). -/
def criticalFallback : List String := ["2-", "3-", "4-", "5-"]

/-- classifyViolation from the source: the four severity tables are checked
in order HIGH, MEDIUM, LOW, CORE on the trimmed code; HIGH, MEDIUM and LOW
yield critical, CORE yields noncritical; otherwise the coarse prefix
fallback decides. -/
def classifyViolation (code : String) : String :=
  let normalized := trimS code
  if tableMatches normalized HIGH_PRIORITY then "critical"
  else if tableMatches normalized MEDIUM_PRIORITY then "critical"
  else if tableMatches normalized LOW_PRIORITY then "critical"
  else if tableMatches normalized CORE then "noncritical"
  else if criticalFallback.any (fun c => startsWithS normalized c) then "critical"
  else "noncritical"

/-- getViolationPoints from the source: same table scan as
classifyViolation, mapping HIGH to 15, MEDIUM to 8, LOW to 3, CORE to 1,
with the same prefix fallback giving 8 or 1. -/
def getViolationPoints (code : String) : Nat :=
  let normalized := trimS code
  if tableMatches normalized HIGH_PRIORITY then 15
  else if tableMatches normalized MEDIUM_PRIORITY then 8
  else if tableMatches normalized LOW_PRIORITY then 3
  else if tableMatches normalized CORE then 1
  else if criticalFallback.any (fun c => startsWithS normalized c) then 8
  else 1

/-- Disjunction of the four table scans, used to state the fallback claim. -/
def matchesAnyTable (n : String) : Bool :=
  tableMatches n HIGH_PRIORITY || tableMatches n MEDIUM_PRIORITY ||
  tableMatches n LOW_PRIORITY || tableMatches n CORE

/-- The fallback prefix test of both classifier functions. -/
def hasCriticalCodeStart (n : String) : Bool :=
  criticalFallback.any (fun c => startsWithS n c)

/-- getRiskLevel from the source. -/
def getRiskLevel (score : Nat) : String :=
  if score = 0 then "EXCELLENT"
  else if score ≤ 5 then "LOW"
  else if score ≤ 20 then "MEDIUM"
  else if score ≤ 40 then "HIGH"
  else "CRITICAL"

/-- getColor from the source. -/
def getColor (score : Nat) : String :=
  if score ≥ 50 then "crimson"
  else if score ≥ 30 then "red"
  else if score ≥ 15 then "orange"
  else if score > 0 then "yellow"
  else "green"

/-- One facility category of the FACILITY_CATEGORIES table: its name, its
keyword list and its integer priority. -/
structure FacCat where
  name : String
  keywords : List String
  priority : Int
deriving DecidableEq

/-- School entry of FACILITY_CATEGORIES. -/
def schoolCat : FacCat :=
  ⟨"School",
   ["school", "elementary", "middle school", "high school", "preschool",
    "daycare", "day care", "childcare", "child care", "university",
    "college", "academy", "kindergarten", "head start"], 10⟩

/-- Senior/Community Center entry of FACILITY_CATEGORIES. -/
def seniorCat : FacCat :=
  ⟨"Senior/Community Center",
   ["nutrition program", "senior center", "elderly", "retirement",
    "assisted living", "nursing home", "care center", "community center",
    "senior living", "memory care", "adult day"], 9⟩

/-- Fast Food entry of FACILITY_CATEGORIES. -/
def fastFoodCat : FacCat :=
  ⟨"Fast Food",
   ["mcdonalds", "mcdonald\x27s", "burger king", "subway", "taco bell",
    "wendy", "wendys", "kfc", "arby", "domino", "pizza hut", "papa john",
    "sonic", "dairy queen", "dq ", "popeyes", "chick-fil-a", "chipotle",
    "panera", "jimmy john", "qdoba", "taco john", "culver", "raising cane",
    "five guys", "shake shack", "whataburger", "drive thru", "drive-thru"], 8⟩

/-- Gas Station/Convenience entry of FACILITY_CATEGORIES. -/
def gasStationCat : FacCat :=
  ⟨"Gas Station/Convenience",
   ["casey", "kum & go", "kum and go", "kwik trip", "kwik star", "quiktrip",
    "quick trip", "bp ", "shell", "git n go", "git-n-go", "conoco",
    "phillips 66", "7-eleven", "speedway", "pilot", "flying j", "circle k",
    "marathon", "loves", "gas station", "convenience store", "c-store",
    "truck stop"], 7⟩

/-- Grocery Store entry of FACILITY_CATEGORIES. -/
def groceryCat : FacCat :=
  ⟨"Grocery Store",
   ["hy-vee", "aldi", "walmart", "target", "fareway", "whole foods",
    "trader joe", "fresh thyme", "natural grocers", "kroger", "costco",
    "sam\x27s club", "sams club", "grocery store", "grocery", "market",
    "supermarket", "food mart", "food market", "asian market",
    "asian grocery", "international market", "ethnic market"], 6⟩

/-- Bar/Brewery/Distillery entry of FACILITY_CATEGORIES. -/
def barCat : FacCat :=
  ⟨"Bar/Brewery/Distillery",
   ["bar", "pub", "brewery", "brewing", "brewpub", "taproom", "tavern",
    "lounge", "saloon", "sports bar", "nightclub", "night club",
    "distillery", "winery", "wine bar", "cocktail lounge", "cocktail bar"], 5⟩

/-- Coffee Shop/Cafe entry of FACILITY_CATEGORIES. -/
def coffeeCat : FacCat :=
  ⟨"Coffee Shop/Cafe",
   ["starbucks", "caribou", "dunkin", "peet\x27s", "dutch bros",
    "tim horton", "coffee", "cafe", "café", "espresso", "coffee shop",
    "coffee house", "coffeehouse"], 4⟩

/-- Bakery/Dessert entry of FACILITY_CATEGORIES. -/
def bakeryCat : FacCat :=
  ⟨"Bakery/Dessert",
   ["bakery", "cupcake", "donut", "doughnut", "ice cream", "gelato",
    "frozen yogurt", "candy", "chocolate", "sweet", "pastry", "cookies",
    "dessert", "confection", "cake", "fudge", "yogurt shop"], 3⟩

/-- Hotel/Lodging entry of FACILITY_CATEGORIES. -/
def hotelCat : FacCat :=
  ⟨"Hotel/Lodging",
   ["hotel", "motel", "inn", "resort", "lodge", "embassy suites",
    "holiday inn", "marriott", "hilton", "hampton", "hyatt", "sheraton",
    "radisson", "comfort inn", "best western", "la quinta", "courtyard",
    "residence inn"], 2⟩

/-- Recreation Facility entry of FACILITY_CATEGORIES. -/
def recreationCat : FacCat :=
  ⟨"Recreation Facility",
   ["bowling", "golf", "country club", "athletic club", "fitness", "gym",
    "pool hall", "billiards", "skating", "rink", "laser tag", "arcade",
    "theater", "cinema", "ymca", "ywca", "pickleball", "tennis club",
    "sports complex"], 1⟩

/-- Food Truck/Mobile entry of FACILITY_CATEGORIES. -/
def foodTruckCat : FacCat :=
  ⟨"Food Truck/Mobile",
   ["food truck", "mobile", " cart", "food cart", "trailer", "vendor",
    "mobile kitchen", "mobile food"], 0⟩

/-- Catering entry of FACILITY_CATEGORIES. -/
def cateringCat : FacCat :=
  ⟨"Catering", ["catering", "caterer", "banquet", "event catering"], -1⟩

/-- Restaurant entry of FACILITY_CATEGORIES: the keywordless default. -/
def restaurantCat : FacCat := ⟨"Restaurant", [], -999⟩

/-- FACILITY_CATEGORIES from the source, in its declaration order (the
order Object.entries iterates). -/
def FACILITY_CATEGORIES : List FacCat :=
  [schoolCat, seniorCat, fastFoodCat, gasStationCat, groceryCat, barCat,
   coffeeCat, bakeryCat, hotelCat, recreationCat, foodTruckCat,
   cateringCat, restaurantCat]

/-- Table entries below School, in table order. -/
def tailCats : List FacCat :=
  [seniorCat, fastFoodCat, gasStationCat, groceryCat, barCat, coffeeCat,
   bakeryCat, hotelCat, recreationCat, foodTruckCat, cateringCat,
   restaurantCat]

/-- Inner keyword loop of categorizeFacility: walk the keyword list; at the
first keyword found inside the text whose category priority beats the
current best, the best becomes this category and the loop breaks; a
matching keyword that does not beat the best leaves it and continues. -/
def scanKw (text cname : String) (p : Int) (best : String × Int) : List String → String × Int
  | [] => best
  | kw :: rest =>
    if includesS text (toLowerS kw) then
      if p > best.2 then (cname, p) else scanKw text cname p best rest
    else scanKw text cname p best rest

/-- Outer per-category step of categorizeFacility's scan. -/
def stepCat (text : String) (best : String × Int) (c : FacCat) : String × Int :=
  scanKw text c.name c.priority best c.keywords

/-- categorizeFacility from the source: lowercase the concatenation of name
and address, scan every category of the table in order keeping the
strictly best priority seen, starting from the Restaurant default. -/
def categorizeFacility (name addr : String) : String :=
  let text := toLowerS (name ++ " " ++ addr)
  (FACILITY_CATEGORIES.foldl (stepCat text) ("Restaurant", -999)).1

/-- Does some keyword of the category occur inside the text (the text is
already lowercased by the caller, each keyword is lowercased as in the
source). -/
def kwMatch (text : String) (c : FacCat) : Bool :=
  c.keywords.any (fun kw => includesS text (toLowerS kw))

/-- Written from the words of the spec (section 4.4): among the given
categories, the candidate with the strictly greatest priority, ties keeping
the first one in table order; none when the list is empty.  Used to compare
the scan of categorizeFacility against the spec's description. -/
def specBestCategory : List FacCat → Option FacCat
  | [] => none
  | c :: rest =>
    match specBestCategory rest with
    | none => some c
    | some d => if d.priority > c.priority then some d else some c

/-- Splitting a character list at every slash (the separator structure of
the M/D/YYYY inspection dates the source extracts). -/
def splitOnSlash : List Char → List (List Char)
  | [] => [[]]
  | c :: rest =>
    let r := splitOnSlash rest
    if c = '/' then [] :: r
    else
      match r with
      | [] => [[c]]
      | h :: t => (c :: h) :: t

/-- Numeric value of a nonempty all-digit character list. -/
def charsToNat (l : List Char) : Option Nat :=
  if l = [] then none
  else if l.all Char.isDigit then
    some (l.foldl (fun n c => n * 10 + (c.toNat - 48)) 0)
  else none

/-- Model of the value new Date gives to the M/D/YYYY date strings this
scraper stores: a number strictly monotone in (year, month, day), defined
exactly when the text is a slash-separated numeric month/day/year triple
with a plausible month and day.  An unparseable date is none and behaves
like the NaN timestamp of an invalid JS Date: every strict comparison on
it is false. -/
def dateVal (s : String) : Option Nat :=
  match splitOnSlash s.data with
  | [m, d, y] =>
    match charsToNat m, charsToNat d, charsToNat y with
    | some mv, some dv, some yv =>
      if 1 ≤ mv ∧ mv ≤ 12 ∧ 1 ≤ dv ∧ dv ≤ 31 then some (yv * 372 + mv * 31 + dv)
      else none
    | _, _, _ => none
  | _ => none

/-- Model of the comparison new Date(a) > new Date(b) from the source. -/
def dateGT (a b : String) : Bool :=
  match dateVal a, dateVal b with
  | some x, some y => decide (y < x)
  | _, _ => false

/-- One violation as built inside scrapeViolationsModal.  The field named
section in the source is called sectionLabel here because section is a
reserved word in Lean. -/
structure Violation where
  violationCode : String
  codeExplanation : String
  inspectorComments : String
  sectionLabel : String
deriving DecidableEq

/-- Raw texts of one violation row of the reveal modal, after the source's
label cleanup replacements on explanation and comments (the DOM reads
themselves belong to the excluded browser layer). -/
structure VRaw where
  violationCode : String
  codeExplanation : String
  inspectorComments : String
deriving DecidableEq

/-- Within-modal identity of a violation row (the uniqueKey of
scrapeViolationsModal): the code, explanation and comments joined by
vertical bars. -/
def vKey (v : VRaw) : String :=
  v.violationCode ++ "|" ++ v.codeExplanation ++ "|" ++ v.inspectorComments

/-- Violation-row loop of scrapeViolationsModal: rows with an empty code
are ignored, a row whose uniqueKey was already seen is skipped, and each
kept row is classified into its section. -/
def buildViolationsAux : List VRaw → List String → List Violation
  | [], _ => []
  | r :: rest, seen =>
    if r.violationCode = "" then buildViolationsAux rest seen
    else if vKey r ∈ seen then buildViolationsAux rest seen
    else
      { violationCode := r.violationCode, codeExplanation := r.codeExplanation,
        inspectorComments := r.inspectorComments,
        sectionLabel := classifyViolation r.violationCode } ::
        buildViolationsAux rest (seen ++ [vKey r])

/-- Violation list produced from the reveal modal's rows. -/
def buildViolations (rows : List VRaw) : List Violation := buildViolationsAux rows []

/-- calculateRiskScore from the source: sum the per-violation points, add
50 for a closure and 10 for a reinspection, then clamp with Math.min at
100.  The code read off each violation is its violationCode field: the
source falls back through violationCode, then a code field, then the empty
string, but the violation objects this scraper builds always carry
violationCode and never a separate code field, so that fallback chain
always evaluates to the violationCode field itself. -/
def calculateRiskScore (violations : List Violation) (closureFlag reinspectionFlag : Bool) : Nat :=
  let score := violations.foldl (fun s v => s + getViolationPoints v.violationCode) 0
  let score := if closureFlag then score + 50 else score
  let score := if reinspectionFlag then score + 10 else score
  min score 100

/-- One scraped establishment record as pushed into the page results by
scrapePageResults.  The scrapedAt wall-clock timestamp is left out of the
model; no computation of the source reads it. -/
structure Rec where
  name : String
  addr : String
  phone : String
  city : String
  facilityType : String
  inspectionDate : String
  inspectionType : String
  violations : List Violation
  closureFlag : Bool
  reinspectionFlag : Bool
  zipCode : String
  county : String
  criticalCount : Nat
  noncriticalCount : Nat
  totalViolations : Nat
  riskScore : Nat
  riskLevel : String
  color : String
deriving DecidableEq

/-- One raw establishment row of the results grid, as seen after the
structural HTML parse of the name and address cell and its regex
normalizations (those live on the DOM side and are not touched by any
claim); cellCount is the number of td cells, violationsText the label of
the violations link, and modal the violation rows revealed for the row
(none when the reveal failed or never happened). -/
structure Row where
  cellCount : Nat
  establishmentName : String
  address : String
  phone : String
  city : String
  zipCode : String
  inspectionDate : String
  inspectionType : String
  violationsText : String
  modal : Option (List VRaw)
deriving DecidableEq

/-- Per-row body of the scrapePageResults loop: a row with fewer than 6
cells is skipped, a row whose inspection type does not contain routine
(case-insensitively) is skipped, and otherwise the full record is
assembled: violations from the reveal modal when the violations link label
is nonempty after trimming, closure and reinspection flags from the
inspection type text, severity counts, risk score, level, color and the
facility category. -/
def processRow (row : Row) : Option Rec :=
  if row.cellCount < 6 then none
  else if !(includesS (toLowerS row.inspectionType) "routine") then none
  else
    let hasViolations := (trimS row.violationsText).data.length > 0
    let violations :=
      if hasViolations then
        match row.modal with
        | some vs => buildViolations vs
        | none => []
      else []
    let closureFlag := includesS (toLowerS row.inspectionType) "closure"
    let reinspectionFlag :=
      includesS (toLowerS row.inspectionType) "follow" ||
      includesS (toLowerS row.inspectionType) "reinspection"
    let criticalCount := (violations.filter (fun v => v.sectionLabel = "critical")).length
    let noncriticalCount := (violations.filter (fun v => v.sectionLabel = "noncritical")).length
    let riskScore := calculateRiskScore violations closureFlag reinspectionFlag
    some
      { name := row.establishmentName
        addr := row.address
        phone := row.phone
        city := row.city
        facilityType := categorizeFacility row.establishmentName row.address
        inspectionDate := row.inspectionDate
        inspectionType := row.inspectionType
        violations := violations
        closureFlag := closureFlag
        reinspectionFlag := reinspectionFlag
        zipCode := row.zipCode
        county := "Polk"
        criticalCount := criticalCount
        noncriticalCount := noncriticalCount
        totalViolations := violations.length
        riskScore := riskScore
        riskLevel := getRiskLevel riskScore
        color := getColor riskScore }

/-- scrapePageResults from the source: the records of the rows that were
not skipped, in row order. -/
def scrapePageResults (rows : List Row) : List Rec := rows.filterMap processRow

/-- Within-run duplicate-tracking key of the crawl loop: name, address and
inspection date joined by vertical bars, untrimmed and case-sensitive. -/
def wrKey (r : Rec) : String := r.name ++ "|" ++ r.addr ++ "|" ++ r.inspectionDate

/-- Per-page duplicate count of the crawl loop: walk the page's records in
order against the running seen set, counting a record whose key is already
present and adding the key otherwise; returns the count and the grown
set. -/
def countDupsAdd : List Rec → List String → Nat × List String
  | [], seen => (0, seen)
  | r :: rest, seen =>
    if wrKey r ∈ seen then
      let p := countDupsAdd rest seen
      (p.1 + 1, p.2)
    else countDupsAdd rest (seen ++ [wrKey r])

/-- Pagination affordance the page offers after a scrape, as the crawl loop
observes it: a direct link to the next page, an ellipsis control whose
post-click verification succeeds, an ellipsis control whose verification
times out, or nothing (also standing for a missing main pager). -/
inductive Adv where
  | direct
  | ellipsisOk
  | ellipsisFail
  | noMore
deriving DecidableEq

/-- Environment of one crawl-loop iteration: the records scraped off the
current page and the pagination affordance found afterwards.  The page
identity read from the main pager is taken to agree with the expected page
counter (the mismatch abort is outside every claim). -/
structure CrawlStep where
  page : List Rec
  adv : Adv
deriving DecidableEq

/-- How one crawl run ended. -/
inductive Outcome where
  | finished
  | paginationLoop
  | navFailed
  | pageLimit
  | exhausted
deriving DecidableEq

/-- Crawl loop of scrapeCityWithDateRange, driven by a trace of per-
iteration environments; returns the list of expected page numbers whose
page got scraped, and the outcome.  Mirrors the source order: scrape, count
duplicates into the seen set, on a nonempty all-duplicate page raise the
consecutive counter and abort as a pagination loop at 3, otherwise reset
the counter to 0; then advance: a direct link bumps the counter and stops
past the 1000-page ceiling, a verified ellipsis click bumps the counter and
jumps straight to the next iteration (the source's continue, which skips
the ceiling check), a failed ellipsis verification or a missing control
stops.  An exhausted trace means the environment was not modeled further. -/
def crawl : List CrawlStep → List String → Nat → Nat → List Nat × Outcome
  | [], _, _, _ => ([], Outcome.exhausted)
  | s :: rest, seen, consec, pageNum =>
    let d := countDupsAdd s.page seen
    let dup := 0 < s.page.length ∧ d.1 = s.page.length
    let consec2 := if dup then consec + 1 else 0
    if dup ∧ 3 ≤ consec2 then ([pageNum], Outcome.paginationLoop)
    else
      match s.adv with
      | Adv.noMore => ([pageNum], Outcome.finished)
      | Adv.ellipsisFail => ([pageNum], Outcome.navFailed)
      | Adv.ellipsisOk =>
        let next := crawl rest d.2 consec2 (pageNum + 1)
        (pageNum :: next.1, next.2)
      | Adv.direct =>
        if pageNum + 1 > 1000 then ([pageNum], Outcome.pageLimit)
        else
          let next := crawl rest d.2 consec2 (pageNum + 1)
          (pageNum :: next.1, next.2)

/-- Cross-record establishment key of the dedup and merge engine:
lowercased, trimmed name and address joined by a vertical bar (no date
component). -/
def crKey (r : Rec) : String :=
  trimS (toLowerS r.name) ++ "|" ++ trimS (toLowerS r.addr)

/-- Same-key combination step of keepMostRecentInspections: first the
facility-type backfill mutates the kept record when it lacks the field and
the incoming record has it, then the incoming record replaces the kept one
wholesale when its inspection date is strictly later. -/
def combineR (kept r : Rec) : Rec :=
  let kept2 :=
    if r.facilityType ≠ "" ∧ kept.facilityType = "" then
      { kept with facilityType := r.facilityType }
    else kept
  if dateGT r.inspectionDate kept2.inspectionDate then r else kept2

/-- Lookup in the insertion-ordered map model (JS Map.get). -/
def mapLookup : List (String × Rec) → String → Option Rec
  | [], _ => none
  | (k, v) :: rest, q => if k = q then some v else mapLookup rest q

/-- Update in the insertion-ordered map model (JS Map.set): an existing key
keeps its position, a new key is appended. -/
def mapSet : List (String × Rec) → String → Rec → List (String × Rec)
  | [], q, v => [(q, v)]
  | (k, w) :: rest, q, v =>
    if k = q then (k, v) :: rest else (k, w) :: mapSet rest q v

/-- Loop body of keepMostRecentInspections for one incoming record.
Records are values here; the source mutates shared objects, and on inputs
without aliasing between list elements the two coincide. -/
def mergeStep (m : List (String × Rec)) (r : Rec) : List (String × Rec) :=
  let k := crKey r
  match mapLookup m k with
  | none => mapSet m k r
  | some e => mapSet m k (combineR e r)

/-- keepMostRecentInspections from the source: fold the records in order
through the keyed map and return the kept values in insertion order
(Array.from of Map.values). -/
def keepMostRecentInspections (data : List Rec) : List Rec :=
  (data.foldl mergeStep []).map Prod.snd

/-- mergeWithExistingData from the source: with no prior dataset the new
data passes through; otherwise the prior records are concatenated before
the new ones and collapsed by keepMostRecentInspections. -/
def mergeWithExistingData (newData : List Rec) (existingData : Option (List Rec)) : List Rec :=
  match existingData with
  | none => newData
  | some ex => keepMostRecentInspections (ex ++ newData)

/-- Combining an optional kept record with one incoming same-key record:
the first record for a key is kept as is, later ones go through the
backfill-then-maybe-replace step. -/
def combineO (o : Option Rec) (r : Rec) : Rec :=
  match o with
  | none => r
  | some e => combineR e r

/-- Folding a whole same-key record group, in original order, through
combineO. -/
def combFold (o : Option Rec) (l : List Rec) : Option Rec :=
  l.foldl (fun acc r => some (combineO acc r)) o

/-- Sample record used in closed instances of the theorems below. -/
def baseRec : Rec :=
  { name := "Joe Diner"
    addr := "123 Main St, Des Moines, IA 50309"
    phone := "515-555-0100"
    city := "Des Moines"
    facilityType := "Restaurant"
    inspectionDate := "1/1/2024"
    inspectionType := "Routine"
    violations := []
    closureFlag := false
    reinspectionFlag := false
    zipCode := "50309"
    county := "Polk"
    criticalCount := 0
    noncriticalCount := 0
    totalViolations := 0
    riskScore := 0
    riskLevel := "EXCELLENT"
    color := "green" }

/-- Same establishment as baseRec with a strictly later inspection. -/
def laterRec : Rec := { baseRec with inspectionDate := "6/1/2024" }

/-- A record of a different establishment. -/
def otherRec : Rec := { baseRec with name := "Ankeny Cafe", addr := "9 Oak St" }

/-- Two records of one establishment, the later inspection second: a
dataset on which merging with itself collapses the pair. -/
def dupPairData : List Rec := [baseRec, laterRec]

/-- Two records of two distinct establishments. -/
def nodupData : List Rec := [baseRec, otherRec]

/-- Row whose inspection type is not a routine inspection. -/
def complaintRow : Row :=
  { cellCount := 6
    establishmentName := "Joe Diner"
    address := "123 Main St, Des Moines, IA 50309"
    phone := ""
    city := "Des Moines"
    zipCode := "50309"
    inspectionDate := "1/1/2024"
    inspectionType := "Non-Illness Complaint"
    violationsText := ""
    modal := none }

/-- Crawl environment in which all 1001 iterations find an empty page and a
verified ellipsis control. -/
def ellipsisTrace : List CrawlStep :=
  List.replicate 1001 { page := [], adv := Adv.ellipsisOk }

/-- Crawl environment shaped like the real pagination: direct links up to
page 1000, an ellipsis control for the advance from page 1000 to page 1001,
then a direct link again. -/
def mixedTrace : List CrawlStep :=
  List.replicate 999 { page := [], adv := Adv.direct } ++
    [{ page := [], adv := Adv.ellipsisOk }, { page := [], adv := Adv.direct }]

theorem foldl_points (l : List Violation) : ∀ a : Nat,
    l.foldl (fun s v => s + getViolationPoints v.violationCode) a =
      a + (l.map (fun v => getViolationPoints v.violationCode)).sum := by
  induction l with
  | nil => simp
  | cons v t ih => intro a; simp [List.foldl_cons, ih]; omega

/-- C1: every code of the CORE severity table classifies as noncritical
with 1 point, and every code of the HIGH, MEDIUM and LOW tables classifies
as critical with 15, 8 and 3 points respectively, under the embedded
classifyViolation and getViolationPoints, which consult the four tables in
the order HIGH, MEDIUM, LOW, CORE with a startsWith-or-includes match on
the trimmed code, first matching table winning. -/
theorem c1_severity_tables :
    (∀ c ∈ CORE, classifyViolation c = "noncritical" ∧ getViolationPoints c = 1) ∧
    (∀ c ∈ HIGH_PRIORITY, classifyViolation c = "critical" ∧ getViolationPoints c = 15) ∧
    (∀ c ∈ MEDIUM_PRIORITY, classifyViolation c = "critical" ∧ getViolationPoints c = 8) ∧
    (∀ c ∈ LOW_PRIORITY, classifyViolation c = "critical" ∧ getViolationPoints c = 3) := by
  decide

/-- Closed instance of c1_severity_tables at table members. -/
theorem c1_severity_tables_witness :
    (classifyViolation "6-301.14" = "noncritical" ∧ getViolationPoints "6-301.14" = 1) ∧
    (classifyViolation "3-401.11" = "critical" ∧ getViolationPoints "3-401.11" = 15) ∧
    (classifyViolation "4-501.114" = "critical" ∧ getViolationPoints "4-501.114" = 8) ∧
    (classifyViolation "4-903.11" = "critical" ∧ getViolationPoints "4-903.11" = 3) :=
  ⟨c1_severity_tables.1 "6-301.14" (by decide),
   c1_severity_tables.2.1 "3-401.11" (by decide),
   c1_severity_tables.2.2.1 "4-501.114" (by decide),
   c1_severity_tables.2.2.2 "4-903.11" (by decide)⟩

/-- C2: when no severity table matches the trimmed code, both classifier
functions fall back to the coarse prefix rule: a code starting with 2-, 3-,
4- or 5- is critical with 8 points, every other one noncritical with 1
point; in particular the code 9-999.99 is noncritical with 1 point. -/
theorem c2_fallback :
    (∀ code : String, matchesAnyTable (trimS code) = false →
      (hasCriticalCodeStart (trimS code) = true →
        classifyViolation code = "critical" ∧ getViolationPoints code = 8) ∧
      (hasCriticalCodeStart (trimS code) = false →
        classifyViolation code = "noncritical" ∧ getViolationPoints code = 1)) ∧
    (classifyViolation "9-999.99" = "noncritical" ∧ getViolationPoints "9-999.99" = 1) := by
  constructor
  · intro code h
    simp only [matchesAnyTable, Bool.or_eq_false_iff] at h
    obtain ⟨⟨⟨h1, h2⟩, h3⟩, h4⟩ := h
    unfold hasCriticalCodeStart
    constructor <;> intro hp <;>
      simp [classifyViolation, getViolationPoints, h1, h2, h3, h4, hp]
  · exact ⟨by decide, by decide⟩

/-- Closed instance of c2_fallback on both fallback branches. -/
theorem c2_fallback_witness :
    (classifyViolation "5-000.00" = "critical" ∧ getViolationPoints "5-000.00" = 8) ∧
    (classifyViolation "9-999.99" = "noncritical" ∧ getViolationPoints "9-999.99" = 1) :=
  ⟨(c2_fallback.1 "5-000.00" (by decide)).1 (by decide),
   (c2_fallback.1 "9-999.99" (by decide)).2 (by decide)⟩

/-- C3: the aggregate risk score equals the sum of the per-violation points
plus 50 for a closure and 10 for a reinspection, clamped from above at 100
(so it always lies between 0 and 100). -/
theorem c3_risk_score_clamp : ∀ (vs : List Violation) (cf rf : Bool),
    calculateRiskScore vs cf rf =
      min ((vs.map (fun v => getViolationPoints v.violationCode)).sum +
        (if cf then 50 else 0) + (if rf then 10 else 0)) 100 ∧
    calculateRiskScore vs cf rf ≤ 100 := by
  intro vs cf rf
  refine ⟨?_, ?_⟩
  · cases cf <;> cases rf <;> simp [calculateRiskScore, foldl_points]
  · unfold calculateRiskScore
    exact Nat.min_le_right _ _

/-- C10: the two classifier functions never disagree: a code is noncritical
exactly when it scores 1 point, and critical exactly when it scores 3, 8 or
15 points. -/
theorem c10_tier_points_agree : ∀ code : String,
    (classifyViolation code = "noncritical" ↔ getViolationPoints code = 1) ∧
    (classifyViolation code = "critical" ↔
      (getViolationPoints code = 3 ∨ getViolationPoints code = 8 ∨ getViolationPoints code = 15)) := by
  intro code
  unfold classifyViolation getViolationPoints
  by_cases h1 : tableMatches (trimS code) HIGH_PRIORITY = true <;>
  by_cases h2 : tableMatches (trimS code) MEDIUM_PRIORITY = true <;>
  by_cases h3 : tableMatches (trimS code) LOW_PRIORITY = true <;>
  by_cases h4 : tableMatches (trimS code) CORE = true <;>
  by_cases h5 : (criticalFallback.any fun c => startsWithS (trimS code) c) = true <;>
  simp [h1, h2, h3, h4, h5]

theorem scanKw_eq (text cname : String) (p : Int) : ∀ (kws : List String) (best : String × Int),
    scanKw text cname p best kws =
      if (kws.any fun kw => includesS text (toLowerS kw)) = true ∧ best.2 < p then
        (cname, p)
      else best := by
  intro kws
  induction kws with
  | nil => intro best; simp [scanKw]
  | cons kw rest ih =>
    intro best
    simp only [scanKw, List.any_cons, Bool.or_eq_true]
    by_cases hk : includesS text (toLowerS kw) = true
    · by_cases hp : best.2 < p
      · simp [hk, hp]
      · simp [hk, hp, ih]
    · simp [hk, ih]

theorem stepCat_eq (text : String) (best : String × Int) (c : FacCat) :
    stepCat text best c =
      if kwMatch text c = true ∧ best.2 < c.priority then (c.name, c.priority) else best := by
  unfold stepCat kwMatch
  rw [scanKw_eq]

theorem specBest_mem : ∀ (l : List FacCat) (c : FacCat), specBestCategory l = some c → c ∈ l := by
  intro l
  induction l with
  | nil => intro c h; simp [specBestCategory] at h
  | cons a l ih =>
    intro c h
    cases hs : specBestCategory l with
    | none =>
      simp only [specBestCategory, hs, Option.some.injEq] at h
      simp [h]
    | some d =>
      simp only [specBestCategory, hs] at h
      by_cases hp : d.priority > a.priority
      · rw [if_pos hp] at h
        simp only [Option.some.injEq] at h
        exact List.mem_cons_of_mem a (by rw [← h]; exact ih d hs)
      · rw [if_neg hp] at h
        simp only [Option.some.injEq] at h
        simp [h]

theorem specBest_cons_some (a : FacCat) (l : List FacCat) :
    ∃ c, specBestCategory (a :: l) = some c := by
  cases hs : specBestCategory l with
  | none => exact ⟨a, by simp [specBestCategory, hs]⟩
  | some d =>
    by_cases hp : d.priority > a.priority
    · exact ⟨d, by simp [specBestCategory, hs, hp]⟩
    · exact ⟨a, by simp [specBestCategory, hs, hp]⟩

theorem foldCat_spec (text : String) : ∀ (L : List FacCat) (best : String × Int),
    L.foldl (stepCat text) best =
      match specBestCategory (L.filter fun c => kwMatch text c) with
      | none => best
      | some c => if best.2 < c.priority then (c.name, c.priority) else best := by
  intro L
  induction L with
  | nil => intro best; simp [specBestCategory]
  | cons c L ih =>
    intro best
    by_cases hm : kwMatch text c = true
    · rw [List.foldl_cons, List.filter_cons_of_pos hm, ih, stepCat_eq]
      simp only [hm, true_and]
      cases hs : specBestCategory (L.filter fun x => kwMatch text x) with
      | none => simp [specBestCategory, hs]
      | some d =>
        simp only [specBestCategory, hs]
        by_cases hp : d.priority > c.priority
        · rw [if_pos hp]
          by_cases hbc : best.2 < c.priority
          · rw [if_pos hbc]
            have h1 : ((c.name, c.priority) : String × Int).2 < d.priority := hp
            have h2 : best.2 < d.priority := lt_trans hbc hp
            simp [h1, h2]
          · rw [if_neg hbc]
        · rw [if_neg hp]
          by_cases hbc : best.2 < c.priority
          · rw [if_pos hbc]
            have h1 : ¬ (((c.name, c.priority) : String × Int).2 < d.priority) := hp
            simp [h1, hbc]
          · rw [if_neg hbc]
            have h1 : ¬ (best.2 < d.priority) := by
              simp at hp
              intro hlt
              exact hbc (lt_of_lt_of_le hlt hp)
            simp [h1, hbc]
    · have hm' : kwMatch text c = false := by revert hm; cases kwMatch text c <;> simp
      rw [List.foldl_cons, List.filter_cons_of_neg (by simp [hm']), ih, stepCat_eq]
      simp [hm']

theorem categorize_eq_spec (name addr : String) :
    categorizeFacility name addr =
      match specBestCategory (FACILITY_CATEGORIES.filter
          fun c => kwMatch (toLowerS (name ++ " " ++ addr)) c) with
      | none => "Restaurant"
      | some c => c.name := by
  simp only [categorizeFacility]
  rw [foldCat_spec]
  cases hs : specBestCategory (FACILITY_CATEGORIES.filter
      fun c => kwMatch (toLowerS (name ++ " " ++ addr)) c) with
  | none => rfl
  | some c =>
    have hc := specBest_mem _ _ hs
    rw [List.mem_filter] at hc
    have hkeys : c.keywords ≠ [] := by
      intro hnil
      have hx := hc.2
      rw [kwMatch, hnil] at hx
      simp at hx
    have hfact : ∀ x ∈ FACILITY_CATEGORIES, x.keywords = [] ∨ -999 < x.priority := by decide
    have hpr : (-999 : Int) < c.priority := by
      rcases hfact c hc.1 with h | h
      · exact absurd h hkeys
      · exact h
    simp [hpr]

/-- C4: facility categorization is priority-monotonic.  First, the scan of
categorizeFacility agrees with the spec-side selection specBestCategory:
the matching category of strictly greatest priority wins, ties keeping the
earlier table entry, and Restaurant is the result when nothing matches.
Second, a text matching both the priority-10 category (School) and the
priority-3 category (Bakery/Dessert) categorizes as School whatever the
keyword positions.  Third, Restaurant is returned exactly when no
category's keyword occurs in the text. -/
theorem c4_priority_monotone :
    (∀ name addr : String,
      categorizeFacility name addr =
        match specBestCategory (FACILITY_CATEGORIES.filter
            fun c => kwMatch (toLowerS (name ++ " " ++ addr)) c) with
        | none => "Restaurant"
        | some c => c.name) ∧
    (∀ name addr : String,
      kwMatch (toLowerS (name ++ " " ++ addr)) schoolCat = true →
      kwMatch (toLowerS (name ++ " " ++ addr)) bakeryCat = true →
      categorizeFacility name addr = "School") ∧
    (∀ name addr : String,
      categorizeFacility name addr = "Restaurant" ↔
        FACILITY_CATEGORIES.filter
          (fun c => kwMatch (toLowerS (name ++ " " ++ addr)) c) = []) := by
  refine ⟨fun name addr => categorize_eq_spec name addr, ?_, ?_⟩
  · intro name addr hsch _hbak
    rw [categorize_eq_spec]
    have hrest : ∀ x ∈ tailCats, x.priority ≤ 9 := by decide
    rw [show FACILITY_CATEGORIES = schoolCat :: tailCats from rfl]
    rw [List.filter_cons_of_pos hsch]
    cases hd : specBestCategory (tailCats.filter
        fun c => kwMatch (toLowerS (name ++ " " ++ addr)) c) with
    | none => simp [specBestCategory, hd, schoolCat]
    | some d =>
      have hdm := specBest_mem _ _ hd
      rw [List.mem_filter] at hdm
      have h9 : d.priority ≤ 9 := hrest d hdm.1
      have hnp : ¬ ((10 : Int) < d.priority) := by omega
      simp [specBestCategory, hd, hnp, schoolCat]
  · intro name addr
    rw [categorize_eq_spec]
    cases hf : FACILITY_CATEGORIES.filter
        (fun c => kwMatch (toLowerS (name ++ " " ++ addr)) c) with
    | nil => simp [specBestCategory]
    | cons a l =>
      obtain ⟨c, hc⟩ := specBest_cons_some a l
      rw [hc]
      have hcm : c ∈ a :: l := specBest_mem _ _ hc
      rw [← hf, List.mem_filter] at hcm
      have hkeys : c.keywords ≠ [] := by
        intro hnil
        have hx := hcm.2
        rw [kwMatch, hnil] at hx
        simp at hx
      have hfact : ∀ x ∈ FACILITY_CATEGORIES, x.keywords = [] ∨ x.name ≠ "Restaurant" := by
        decide
      have hname : c.name ≠ "Restaurant" := by
        rcases hfact c hcm.1 with h | h
        · exact absurd h hkeys
        · exact h
      simp [hname]

/-- Closed instance of c4_priority_monotone: a name holding both a School
keyword and a Bakery/Dessert keyword categorizes as School. -/
theorem c4_priority_monotone_witness :
    kwMatch (toLowerS ("Sunshine Elementary School Sweet Shop" ++ " " ++ "")) schoolCat = true ∧
    kwMatch (toLowerS ("Sunshine Elementary School Sweet Shop" ++ " " ++ "")) bakeryCat = true ∧
    categorizeFacility "Sunshine Elementary School Sweet Shop" "" = "School" :=
  ⟨by decide, by decide,
   c4_priority_monotone.2.1 "Sunshine Elementary School Sweet Shop" "" (by decide) (by decide)⟩

/-- C9: a row whose inspection-type text does not contain routine
case-insensitively is skipped entirely: it yields no record, and a page's
results are unchanged when such rows are removed beforehand. -/
theorem c9_routine_filter :
    (∀ row : Row,
      includesS (toLowerS row.inspectionType) "routine" = false → processRow row = none) ∧
    (∀ rows : List Row,
      scrapePageResults rows =
        scrapePageResults (rows.filter fun r => includesS (toLowerS r.inspectionType) "routine")) := by
  have h1 : ∀ row : Row,
      includesS (toLowerS row.inspectionType) "routine" = false → processRow row = none := by
    intro row h
    unfold processRow
    rw [h]
    simp
  refine ⟨h1, ?_⟩
  intro rows
  induction rows with
  | nil => rfl
  | cons r t ih =>
    by_cases hr : includesS (toLowerS r.inspectionType) "routine" = true
    · simp only [scrapePageResults] at ih ⊢
      simp [List.filter_cons, hr, List.filterMap_cons, ih]
    · have hr' : includesS (toLowerS r.inspectionType) "routine" = false := by
        revert hr
        cases includesS (toLowerS r.inspectionType) "routine" <;> simp
      simp only [scrapePageResults] at ih ⊢
      simp [List.filter_cons, hr', List.filterMap_cons, h1 r hr', ih]

/-- Closed instance of c9_routine_filter: a complaint row produces no
record. -/
theorem c9_routine_filter_witness : processRow complaintRow = none :=
  c9_routine_filter.1 complaintRow (by decide)

theorem countDups_all_dup : ∀ (page : List Rec) (seen : List String),
    (∀ r ∈ page, wrKey r ∈ seen) → countDupsAdd page seen = (page.length, seen) := by
  intro page
  induction page with
  | nil => intro seen _; simp [countDupsAdd]
  | cons r t ih =>
    intro seen h
    have hr : wrKey r ∈ seen := h r (List.mem_cons_self r t)
    rw [show countDupsAdd (r :: t) seen =
        (if wrKey r ∈ seen then
          ((countDupsAdd t seen).1 + 1, (countDupsAdd t seen).2)
        else countDupsAdd t (seen ++ [wrKey r])) from rfl]
    rw [if_pos hr, ih seen fun x hx => h x (List.mem_cons_of_mem r hx)]
    simp

theorem countDups_le : ∀ (page : List Rec) (seen : List String),
    (countDupsAdd page seen).1 ≤ page.length := by
  intro page
  induction page with
  | nil => intro seen; simp [countDupsAdd]
  | cons r t ih =>
    intro seen
    rw [show countDupsAdd (r :: t) seen =
        (if wrKey r ∈ seen then
          ((countDupsAdd t seen).1 + 1, (countDupsAdd t seen).2)
        else countDupsAdd t (seen ++ [wrKey r])) from rfl]
    by_cases hr : wrKey r ∈ seen
    · rw [if_pos hr]
      have := ih seen
      simp
      omega
    · rw [if_neg hr]
      have := ih (seen ++ [wrKey r])
      simp
      omega

theorem countDups_lt : ∀ (page : List Rec) (seen : List String),
    (∃ r ∈ page, wrKey r ∉ seen) → (countDupsAdd page seen).1 < page.length := by
  intro page
  induction page with
  | nil => intro seen h; simp at h
  | cons r t ih =>
    intro seen h
    rw [show countDupsAdd (r :: t) seen =
        (if wrKey r ∈ seen then
          ((countDupsAdd t seen).1 + 1, (countDupsAdd t seen).2)
        else countDupsAdd t (seen ++ [wrKey r])) from rfl]
    by_cases hr : wrKey r ∈ seen
    · rw [if_pos hr]
      rcases h with ⟨x, hx, hnx⟩
      rcases List.mem_cons.1 hx with hx | hx
      · exact absurd (hx ▸ hr) hnx
      · have := ih seen ⟨x, hx, hnx⟩
        simp
        omega
    · rw [if_neg hr]
      have := countDups_le t (seen ++ [wrKey r])
      simp
      omega

theorem crawl_abort (s : CrawlStep) (rest : List CrawlStep) (seen : List String) (c p : Nat)
    (hne : s.page ≠ []) (hdup : ∀ r ∈ s.page, wrKey r ∈ seen) (hc : 2 ≤ c) :
    crawl (s :: rest) seen c p = ([p], Outcome.paginationLoop) := by
  have hd := countDups_all_dup s.page seen hdup
  have hlen : 0 < s.page.length := List.length_pos.2 hne
  have h3 : 3 ≤ c + 1 := by omega
  simp [crawl, hd, hlen, h3]

theorem crawl_step_alldup (page : List Rec) (a : Adv) (rest : List CrawlStep)
    (seen : List String) (c p : Nat)
    (hne : page ≠ []) (hdup : ∀ r ∈ page, wrKey r ∈ seen) (hc : c + 1 < 3)
    (ha : a = Adv.direct ∨ a = Adv.ellipsisOk) (hp : p + 1 ≤ 1000) :
    crawl ({ page := page, adv := a } :: rest) seen c p =
      (p :: (crawl rest seen (c + 1) (p + 1)).1, (crawl rest seen (c + 1) (p + 1)).2) := by
  have hd := countDups_all_dup page seen hdup
  have hlen : 0 < page.length := List.length_pos.2 hne
  have hno3 : ¬ 3 ≤ c + 1 := by omega
  have hnp : ¬ p + 1 > 1000 := by omega
  rcases ha with ha | ha <;> subst ha <;> simp [crawl, hd, hlen, hno3, hnp]

theorem crawl_reset (s : CrawlStep) (rest : List CrawlStep) (seen : List String) (c p : Nat)
    (hex : ∃ r ∈ s.page, wrKey r ∉ seen) :
    crawl (s :: rest) seen c p = crawl (s :: rest) seen 0 p := by
  have hlt := countDups_lt s.page seen hex
  have hnd : ¬ (0 < s.page.length ∧ (countDupsAdd s.page seen).1 = s.page.length) := by
    rintro ⟨_, he⟩
    omega
  simp [crawl, hnd]

/-- C5: loop detection in the crawl loop.  A nonempty page whose records
all carry previously seen keys raises the consecutive-duplicate counter and
aborts the crawl as a pagination loop once the counter reaches 3 (so with
the counter at 2 such a page aborts at once); a page holding at least one
new record behaves as if the counter were 0; three consecutive nonempty
all-duplicate pages abort with the pagination-loop outcome after the third;
and two such pages followed by a page with even a single new record do not
abort. -/
theorem c5_pagination_loop_detection :
    (∀ (s : CrawlStep) (rest : List CrawlStep) (seen : List String) (c p : Nat),
      s.page ≠ [] → (∀ r ∈ s.page, wrKey r ∈ seen) → 2 ≤ c →
      crawl (s :: rest) seen c p = ([p], Outcome.paginationLoop)) ∧
    (∀ (s : CrawlStep) (rest : List CrawlStep) (seen : List String) (c p : Nat),
      (∃ r ∈ s.page, wrKey r ∉ seen) →
      crawl (s :: rest) seen c p = crawl (s :: rest) seen 0 p) ∧
    (∀ (p1 p2 p3 : List Rec) (a1 a2 a3 : Adv) (seen : List String) (pn : Nat),
      p1 ≠ [] → p2 ≠ [] → p3 ≠ [] →
      (∀ r ∈ p1, wrKey r ∈ seen) → (∀ r ∈ p2, wrKey r ∈ seen) →
      (∀ r ∈ p3, wrKey r ∈ seen) →
      (a1 = Adv.direct ∨ a1 = Adv.ellipsisOk) →
      (a2 = Adv.direct ∨ a2 = Adv.ellipsisOk) →
      pn + 2 ≤ 1000 →
      crawl [⟨p1, a1⟩, ⟨p2, a2⟩, ⟨p3, a3⟩] seen 0 pn =
        ([pn, pn + 1, pn + 2], Outcome.paginationLoop)) ∧
    (∀ (p1 p2 p3 : List Rec) (a1 a2 a3 : Adv) (seen : List String) (pn : Nat),
      p1 ≠ [] → p2 ≠ [] →
      (∀ r ∈ p1, wrKey r ∈ seen) → (∀ r ∈ p2, wrKey r ∈ seen) →
      (∃ r ∈ p3, wrKey r ∉ seen) →
      (a1 = Adv.direct ∨ a1 = Adv.ellipsisOk) →
      (a2 = Adv.direct ∨ a2 = Adv.ellipsisOk) →
      pn + 2 ≤ 1000 →
      (crawl [⟨p1, a1⟩, ⟨p2, a2⟩, ⟨p3, a3⟩] seen 0 pn).2 ≠ Outcome.paginationLoop) := by
  refine ⟨crawl_abort, crawl_reset, ?_, ?_⟩
  · intro p1 p2 p3 a1 a2 a3 seen pn h1 h2 h3 hd1 hd2 hd3 ha1 ha2 hpn
    rw [crawl_step_alldup p1 a1 _ seen 0 pn h1 hd1 (by omega) ha1 (by omega)]
    rw [crawl_step_alldup p2 a2 _ seen 1 (pn + 1) h2 hd2 (by omega) ha2 (by omega)]
    rw [crawl_abort ⟨p3, a3⟩ [] seen 2 (pn + 2) h3 hd3 (by omega)]
  · intro p1 p2 p3 a1 a2 a3 seen pn h1 h2 hd1 hd2 hex ha1 ha2 hpn
    rw [crawl_step_alldup p1 a1 _ seen 0 pn h1 hd1 (by omega) ha1 (by omega)]
    rw [crawl_step_alldup p2 a2 _ seen 1 (pn + 1) h2 hd2 (by omega) ha2 (by omega)]
    rw [crawl_reset ⟨p3, a3⟩ [] seen 2 (pn + 2) hex]
    have hlt := countDups_lt p3 seen hex
    have hnd : ¬ (0 < p3.length ∧ (countDupsAdd p3 seen).1 = p3.length) := by
      rintro ⟨_, he⟩
      omega
    cases a3 <;> (simp [crawl, hnd]; try (split <;> simp))

/-- Closed instance of c5_pagination_loop_detection: three all-duplicate
pages of a known record abort as a pagination loop, and with a new record
on the third page the run ends without the pagination-loop outcome. -/
theorem c5_pagination_loop_detection_witness :
    crawl [⟨[baseRec], Adv.ellipsisOk⟩, ⟨[baseRec], Adv.ellipsisOk⟩,
           ⟨[baseRec], Adv.ellipsisOk⟩] [wrKey baseRec] 0 1 =
      ([1, 2, 3], Outcome.paginationLoop) ∧
    (crawl [⟨[baseRec], Adv.ellipsisOk⟩, ⟨[baseRec], Adv.ellipsisOk⟩,
            ⟨[otherRec], Adv.noMore⟩] [wrKey baseRec] 0 1).2 ≠ Outcome.paginationLoop :=
  ⟨c5_pagination_loop_detection.2.2.1 [baseRec] [baseRec] [baseRec]
      Adv.ellipsisOk Adv.ellipsisOk Adv.ellipsisOk [wrKey baseRec] 1
      (by decide) (by decide) (by decide) (by decide) (by decide) (by decide)
      (Or.inr rfl) (Or.inr rfl) (by omega),
   c5_pagination_loop_detection.2.2.2 [baseRec] [baseRec] [otherRec]
      Adv.ellipsisOk Adv.ellipsisOk Adv.noMore [wrKey baseRec] 1
      (by decide) (by decide) (by decide) (by decide)
      ⟨otherRec, by decide, by decide⟩
      (Or.inr rfl) (Or.inr rfl) (by omega)⟩

/-- C6 is refuted on the code: the 1000-page ceiling is checked only on the
direct-link advance path.  A run in which every advance goes through the
ellipsis control scrapes page 1001 (and would go on), because the source's
continue statement jumps back to the top of the loop without reaching the
ceiling check; a direct-link advance from page 1000 does stop with the
page-limit outcome. -/
theorem c6_ceiling_skipped_on_ellipsis_path :
    (crawl ellipsisTrace [] 0 1).1.contains 1001 = true ∧
    (crawl ellipsisTrace [] 0 1).2 = Outcome.exhausted ∧
    (crawl mixedTrace [] 0 1).1.contains 1001 = true ∧
    (crawl mixedTrace [] 0 1).2 = Outcome.pageLimit ∧
    crawl [⟨[], Adv.direct⟩] [] 0 1000 = ([1000], Outcome.pageLimit) :=
  ⟨by decide, by decide, by decide, by decide, by decide⟩

theorem mapLookup_set_self : ∀ (m : List (String × Rec)) (k : String) (v : Rec),
    mapLookup (mapSet m k v) k = some v := by
  intro m
  induction m with
  | nil => intro k v; simp [mapSet, mapLookup]
  | cons p m ih =>
    intro k v
    obtain ⟨k', w⟩ := p
    by_cases h : k' = k
    · subst h; simp [mapSet, mapLookup]
    · simp [mapSet, mapLookup, h, ih]

theorem mapLookup_set_other : ∀ (m : List (String × Rec)) (k : String) (v : Rec) (q : String),
    q ≠ k → mapLookup (mapSet m k v) q = mapLookup m q := by
  intro m
  induction m with
  | nil =>
    intro k v q hq
    have hne : ¬ k = q := fun h => hq h.symm
    simp [mapSet, mapLookup, hne]
  | cons p m ih =>
    intro k v q hq
    obtain ⟨k', w⟩ := p
    by_cases h : k' = k
    · subst h
      have hne : ¬ k' = q := fun h2 => hq h2.symm
      simp only [mapSet, if_pos rfl]
      simp [mapLookup, hne]
    · simp only [mapSet, if_neg h]
      by_cases h2 : k' = q
      · simp [mapLookup, h2]
      · simp [mapLookup, h2, ih k v q hq]

theorem mapLookup_none_iff : ∀ (m : List (String × Rec)) (k : String),
    mapLookup m k = none ↔ k ∉ m.map Prod.fst := by
  intro m
  induction m with
  | nil => intro k; simp [mapLookup]
  | cons p m ih =>
    intro k
    obtain ⟨k', w⟩ := p
    by_cases h : k' = k
    · subst h; simp [mapLookup]
    · simp only [mapLookup, if_neg h, List.map_cons, List.mem_cons]
      rw [ih]
      constructor
      · intro hn
        rintro (he | hm)
        · exact h he.symm
        · exact hn hm
      · intro hn hm
        exact hn (Or.inr hm)

theorem mapLookup_mem : ∀ (m : List (String × Rec)) (k : String) (v : Rec),
    mapLookup m k = some v → (k, v) ∈ m := by
  intro m
  induction m with
  | nil => intro k v h; simp [mapLookup] at h
  | cons p m ih =>
    intro k v h
    obtain ⟨k', w⟩ := p
    by_cases hk : k' = k
    · subst hk
      simp [mapLookup] at h
      subst h
      simp
    · simp only [mapLookup, if_neg hk] at h
      exact List.mem_cons_of_mem _ (ih k v h)

theorem mem_mapLookup : ∀ (m : List (String × Rec)) (k : String) (v : Rec),
    (m.map Prod.fst).Nodup → (k, v) ∈ m → mapLookup m k = some v := by
  intro m
  induction m with
  | nil => intro k v _ h; simp at h
  | cons p m ih =>
    intro k v hnd h
    obtain ⟨k', w⟩ := p
    rcases List.mem_cons.1 h with h1 | h1
    · have hk : k = k' := congrArg Prod.fst h1
      have hv : v = w := congrArg Prod.snd h1
      subst hk
      simp [mapLookup, hv]
    · have hk : k' ≠ k := by
        intro he
        subst he
        have hin : k' ∈ m.map Prod.fst := List.mem_map.2 ⟨(k', v), h1, rfl⟩
        exact (List.nodup_cons.1 hnd).1 hin
      simp only [mapLookup, if_neg hk]
      exact ih k v (List.nodup_cons.1 hnd).2 h1

theorem mapSet_self : ∀ (m : List (String × Rec)) (k : String) (v : Rec),
    mapLookup m k = some v → mapSet m k v = m := by
  intro m
  induction m with
  | nil => intro k v h; simp [mapLookup] at h
  | cons p m ih =>
    intro k v h
    obtain ⟨k', w⟩ := p
    by_cases hk : k' = k
    · subst hk
      simp [mapLookup] at h
      subst h
      simp [mapSet]
    · simp only [mapLookup, if_neg hk] at h
      simp [mapSet, hk, ih k v h]

theorem mapSet_new : ∀ (m : List (String × Rec)) (k : String) (v : Rec),
    k ∉ m.map Prod.fst → mapSet m k v = m ++ [(k, v)] := by
  intro m
  induction m with
  | nil => intro k v _; simp [mapSet]
  | cons p m ih =>
    intro k v h
    obtain ⟨k', w⟩ := p
    simp only [List.map_cons, List.mem_cons] at h
    push_neg at h
    have hne : ¬ k' = k := fun he => h.1 he.symm
    simp [mapSet, hne, ih k v h.2]

theorem mapSet_keys_mem : ∀ (m : List (String × Rec)) (k : String) (v : Rec),
    k ∈ m.map Prod.fst → (mapSet m k v).map Prod.fst = m.map Prod.fst := by
  intro m
  induction m with
  | nil => intro k v h; simp at h
  | cons p m ih =>
    intro k v h
    obtain ⟨k', w⟩ := p
    by_cases hk : k' = k
    · subst hk; simp [mapSet]
    · simp only [List.map_cons, List.mem_cons] at h
      rcases h with h | h
      · exact absurd h.symm hk
      · simp [mapSet, hk, ih k v h]

theorem mapSet_mem : ∀ (m : List (String × Rec)) (k : String) (v : Rec) (p : String × Rec),
    p ∈ mapSet m k v → p = (k, v) ∨ p ∈ m := by
  intro m
  induction m with
  | nil => intro k v p h; simp [mapSet] at h; simp [h]
  | cons q m ih =>
    intro k v p h
    obtain ⟨k', w⟩ := q
    by_cases hk : k' = k
    · subst hk
      simp only [mapSet, eq_self_iff_true, if_true, List.mem_cons] at h
      rcases h with h1 | h1
      · exact Or.inl (by simp [h1])
      · exact Or.inr (List.mem_cons_of_mem _ h1)
    · simp only [mapSet, if_neg hk, List.mem_cons] at h
      rcases h with h1 | h1
      · exact Or.inr (by simp [h1])
      · rcases ih k v p h1 with h2 | h2
        · exact Or.inl h2
        · exact Or.inr (List.mem_cons_of_mem _ h2)

theorem mergeStep_lookup_eq (m : List (String × Rec)) (r : Rec) :
    mapLookup (mergeStep m r) (crKey r) = some (combineO (mapLookup m (crKey r)) r) := by
  simp only [mergeStep, combineO]
  cases h : mapLookup m (crKey r) <;> simp [mapLookup_set_self]

theorem mergeStep_lookup_other (m : List (String × Rec)) (r : Rec) (q : String)
    (hq : q ≠ crKey r) : mapLookup (mergeStep m r) q = mapLookup m q := by
  simp only [mergeStep]
  cases h : mapLookup m (crKey r) <;> simp [mapLookup_set_other _ _ _ _ hq]

theorem combFold_some : ∀ (l : List Rec) (e : Rec),
    combFold (some e) l = some (l.foldl combineR e) := by
  intro l
  induction l with
  | nil => intro e; rfl
  | cons r t ih => intro e; simp only [combFold, List.foldl_cons] at ih ⊢; exact ih (combineR e r)

theorem fold_lookup : ∀ (data : List Rec) (m : List (String × Rec)) (k : String),
    mapLookup (data.foldl mergeStep m) k =
      combFold (mapLookup m k) (data.filter fun r => crKey r == k) := by
  intro data
  induction data with
  | nil => intro m k; simp [combFold]
  | cons r t ih =>
    intro m k
    rw [List.foldl_cons, ih]
    by_cases hk : crKey r = k
    · subst hk
      rw [mergeStep_lookup_eq]
      simp only [List.filter_cons, beq_self_eq_true, if_true]
      simp [combFold, List.foldl_cons]
    · rw [mergeStep_lookup_other m r k fun he => hk he.symm]
      have : (crKey r == k) = false := by simp [hk]
      simp [List.filter_cons, this]

theorem mergeStep_keys (m : List (String × Rec)) (r : Rec) :
    (mergeStep m r).map Prod.fst =
      if crKey r ∈ m.map Prod.fst then m.map Prod.fst
      else m.map Prod.fst ++ [crKey r] := by
  simp only [mergeStep]
  cases h : mapLookup m (crKey r) with
  | none =>
    have hnot := (mapLookup_none_iff m (crKey r)).1 h
    simp [mapSet_new m _ _ hnot, hnot]
  | some e =>
    have hmem : crKey r ∈ m.map Prod.fst := by
      by_contra hn
      rw [← mapLookup_none_iff] at hn
      simp [h] at hn
    simp [mapSet_keys_mem m _ _ hmem, hmem]

theorem fold_keys_nodup : ∀ (data : List Rec) (m : List (String × Rec)),
    (m.map Prod.fst).Nodup → ((data.foldl mergeStep m).map Prod.fst).Nodup := by
  intro data
  induction data with
  | nil => intro m h; simpa using h
  | cons r t ih =>
    intro m h
    rw [List.foldl_cons]
    apply ih
    rw [mergeStep_keys]
    split
    · exact h
    · next hnot => simp [List.nodup_append, h, hnot]

theorem fold_keys_mem : ∀ (data : List Rec) (m : List (String × Rec)) (k : String),
    k ∈ (data.foldl mergeStep m).map Prod.fst ↔
      k ∈ m.map Prod.fst ∨ k ∈ data.map crKey := by
  intro data
  induction data with
  | nil => intro m k; simp
  | cons r t ih =>
    intro m k
    rw [List.foldl_cons, ih, mergeStep_keys]
    by_cases hm : crKey r ∈ m.map Prod.fst
    · rw [if_pos hm]
      simp only [List.map_cons, List.mem_cons]
      constructor
      · rintro (h | h)
        · exact Or.inl h
        · exact Or.inr (Or.inr h)
      · rintro (h | h | h)
        · exact Or.inl h
        · exact Or.inl (h ▸ hm)
        · exact Or.inr h
    · rw [if_neg hm]
      simp only [List.map_cons, List.mem_cons, List.mem_append, List.mem_singleton]
      tauto

theorem combineR_key (e r : Rec) (h : crKey e = crKey r) : crKey (combineR e r) = crKey r := by
  simp only [combineR]
  by_cases h1 : r.facilityType ≠ "" ∧ e.facilityType = ""
  · rw [if_pos h1]
    split
    · rfl
    · rw [show crKey { e with facilityType := r.facilityType } = crKey e from rfl, h]
  · rw [if_neg h1]
    split
    · rfl
    · exact h

theorem fold_entries_key : ∀ (data : List Rec) (m : List (String × Rec)),
    (∀ p ∈ m, crKey p.2 = p.1) → ∀ p ∈ data.foldl mergeStep m, crKey p.2 = p.1 := by
  intro data
  induction data with
  | nil => intro m h; simpa using h
  | cons r t ih =>
    intro m h
    rw [List.foldl_cons]
    apply ih
    intro p hp
    cases hl : mapLookup m (crKey r) with
    | none =>
      simp only [mergeStep, hl] at hp
      rcases mapSet_mem _ _ _ _ hp with hp | hp
      · subst hp; rfl
      · exact h p hp
    | some e =>
      simp only [mergeStep, hl] at hp
      rcases mapSet_mem _ _ _ _ hp with hp | hp
      · subst hp
        have he : crKey e = crKey r := by
          have hx := h _ (mapLookup_mem _ _ _ hl)
          simpa using hx
        simpa using combineR_key e r he
      · exact h p hp

theorem map_entry_keys : ∀ (m : List (String × Rec)), (∀ p ∈ m, crKey p.2 = p.1) →
    m.map (fun p => crKey p.2) = m.map Prod.fst := by
  intro m
  induction m with
  | nil => intro _; rfl
  | cons p t ih =>
    intro h
    simp only [List.map_cons, h p (List.mem_cons_self p t)]
    rw [ih fun x hx => h x (List.mem_cons_of_mem p hx)]

/-- C7: the merge engine groups by the lowercased, trimmed name-and-address
key and behaves per key as a left fold of the backfill-then-maybe-replace
step over the key's records in original order, seeded with the first record
seen for the key; the output carries exactly one record per distinct key of
the input. -/
theorem c7_merge_engine : ∀ data : List Rec,
    ((keepMostRecentInspections data).map crKey).Nodup ∧
    (∀ k, k ∈ (keepMostRecentInspections data).map crKey ↔ k ∈ data.map crKey) ∧
    (∀ r ∈ keepMostRecentInspections data,
      ∃ f rest, data.filter (fun x => crKey x == crKey r) = f :: rest ∧
        r = rest.foldl combineR f) := by
  intro data
  have hkeysnodup : ((data.foldl mergeStep []).map Prod.fst).Nodup :=
    fold_keys_nodup data [] (by simp)
  have hentry : ∀ p ∈ data.foldl mergeStep [], crKey p.2 = p.1 :=
    fold_entries_key data [] (by simp)
  have hmapkeys : (keepMostRecentInspections data).map crKey =
      (data.foldl mergeStep []).map Prod.fst := by
    unfold keepMostRecentInspections
    rw [List.map_map]
    exact map_entry_keys _ hentry
  refine ⟨?_, ?_, ?_⟩
  · rw [hmapkeys]; exact hkeysnodup
  · intro k
    rw [hmapkeys]
    have h := fold_keys_mem data [] k
    simpa using h
  · intro r hr
    unfold keepMostRecentInspections at hr
    rcases List.mem_map.1 hr with ⟨p, hp, hps⟩
    have hk : p.1 = crKey r := by rw [← hps]; exact (hentry p hp).symm
    have hpr : p = (crKey r, r) := by
      rw [← hk, ← hps]
    have hlook : mapLookup (data.foldl mergeStep []) (crKey r) = some r := by
      apply mem_mapLookup _ _ _ hkeysnodup
      rw [← hpr]
      exact hp
    rw [fold_lookup] at hlook
    rw [show mapLookup [] (crKey r) = none from rfl] at hlook
    cases hf : data.filter (fun x => crKey x == crKey r) with
    | nil => rw [hf] at hlook; simp [combFold] at hlook
    | cons f rest =>
      rw [hf] at hlook
      refine ⟨f, rest, rfl, ?_⟩
      rw [show combFold none (f :: rest) = combFold (some f) rest from rfl,
        combFold_some] at hlook
      simpa using hlook.symm

/-- Closed instance of c7_merge_engine on a two-record dataset sharing one
key. -/
theorem c7_merge_engine_witness :
    ((keepMostRecentInspections dupPairData).map crKey).Nodup ∧
    (∃ f rest, dupPairData.filter (fun x => crKey x == crKey laterRec) = f :: rest ∧
      laterRec = rest.foldl combineR f) :=
  ⟨(c7_merge_engine dupPairData).1,
   (c7_merge_engine dupPairData).2.2 laterRec (by decide)⟩

theorem combineR_self (r : Rec) : combineR r r = r := by
  simp only [combineR]
  have h1 : ¬ (r.facilityType ≠ "" ∧ r.facilityType = "") := by tauto
  rw [if_neg h1]
  have h2 : dateGT r.inspectionDate r.inspectionDate = false := by
    unfold dateGT
    cases dateVal r.inspectionDate <;> simp
  simp [h2]

theorem fold_fresh : ∀ (D : List Rec) (m : List (String × Rec)),
    (D.map crKey).Nodup → (∀ r ∈ D, crKey r ∉ m.map Prod.fst) →
    D.foldl mergeStep m = m ++ D.map (fun r => (crKey r, r)) := by
  intro D
  induction D with
  | nil => intro m _ _; simp
  | cons r t ih =>
    intro m hnd hfresh
    rw [List.foldl_cons]
    have hnone : mapLookup m (crKey r) = none :=
      (mapLookup_none_iff m (crKey r)).2 (hfresh r (List.mem_cons_self r t))
    have hstep : mergeStep m r = m ++ [(crKey r, r)] := by
      simp only [mergeStep, hnone]
      exact mapSet_new m (crKey r) r ((mapLookup_none_iff m (crKey r)).1 hnone)
    rw [hstep]
    rw [ih (m ++ [(crKey r, r)]) (List.nodup_cons.1 (by simpa using hnd)).2 ?_]
    · simp
    · intro x hx
      simp only [List.map_append, List.mem_append]
      push_neg
      constructor
      · exact hfresh x (List.mem_cons_of_mem r hx)
      · have hne : crKey x ≠ crKey r := by
          intro he
          have hin : crKey r ∈ t.map crKey := he ▸ List.mem_map_of_mem crKey hx
          exact (List.nodup_cons.1 (by simpa using hnd)).1 hin
        simpa using hne

theorem mapLookup_pairs : ∀ (D : List Rec) (r : Rec), (D.map crKey).Nodup → r ∈ D →
    mapLookup (D.map fun x => (crKey x, x)) (crKey r) = some r := by
  intro D
  induction D with
  | nil => intro r _ h; simp at h
  | cons a t ih =>
    intro r hnd hr
    simp only [List.map_cons, mapLookup]
    by_cases hk : crKey a = crKey r
    · rw [if_pos hk]
      rcases List.mem_cons.1 hr with h | h
      · rw [h]
      · exfalso
        have hin : crKey a ∈ t.map crKey := hk ▸ List.mem_map_of_mem crKey h
        exact (List.nodup_cons.1 (by simpa using hnd)).1 hin
    · rw [if_neg hk]
      rcases List.mem_cons.1 hr with h | h
      · exact absurd (by rw [h]) hk
      · exact ih r (List.nodup_cons.1 (by simpa using hnd)).2 h

theorem fold_noop : ∀ (D : List Rec) (M : List (String × Rec)),
    (∀ r ∈ D, mapLookup M (crKey r) = some r) → D.foldl mergeStep M = M := by
  intro D
  induction D with
  | nil => intro M _; rfl
  | cons r t ih =>
    intro M h
    rw [List.foldl_cons]
    have hr := h r (List.mem_cons_self r t)
    have hstep : mergeStep M r = M := by
      simp only [mergeStep, hr]
      rw [combineR_self]
      exact mapSet_self M (crKey r) r hr
    rw [hstep]
    exact ih M fun x hx => h x (List.mem_cons_of_mem r hx)

/-- C8 fails as stated: merging the two-record dataset dupPairData (two
inspections of one establishment) with itself collapses it to a single
record, so the result is not identical to the dataset. -/
theorem c8_idempotence_counterexample :
    mergeWithExistingData dupPairData (some dupPairData) ≠ dupPairData := by decide

/-- C8 amended: for every dataset whose records carry pairwise distinct
cross-record keys (in particular any output of the merge engine), merging
the dataset with itself returns it unchanged: same cardinality, same field
values, same order. -/
theorem c8_idempotent_on_distinct_keys : ∀ D : List Rec, (D.map crKey).Nodup →
    mergeWithExistingData D (some D) = D := by
  intro D hnd
  show keepMostRecentInspections (D ++ D) = D
  unfold keepMostRecentInspections
  rw [List.foldl_append]
  rw [fold_fresh D [] hnd (by simp)]
  rw [List.nil_append]
  rw [fold_noop D (D.map fun x => (crKey x, x)) fun r hr => mapLookup_pairs D r hnd hr]
  rw [List.map_map]
  rw [show (Prod.snd ∘ fun x : Rec => (crKey x, x)) = id from rfl, List.map_id]

/-- Closed instance of c8_idempotent_on_distinct_keys on a two-record
dataset with distinct keys. -/
theorem c8_idempotent_on_distinct_keys_witness :
    mergeWithExistingData nodupData (some nodupData) = nodupData :=
  c8_idempotent_on_distinct_keys nodupData (by decide)

